import Mathlib

/-!
Verification of the backtesting and metrics utilities of the
bayesian-commodities-course repository.

The Python sources `utils/backtesting.py` and `utils/metrics.py` are shallowly
embedded: Python ints become `ℤ` (with `Int.fdiv` for Python floor division
`//`), floats become `ℚ`, float `nan` and `inf` become explicit constructors of
a small value type, a raised exception becomes `Except.error`, and NumPy arrays
and pandas series become Lean lists.  Square roots and real powers of floats
have no exact rational counterpart, so the embedding takes the square-root and
power functions as explicit parameters wherever the source calls `np.sqrt` or
`**` with a fractional exponent; no verified property depends on their values
beyond stated hypotheses.
-/

namespace BCC

/-- Container for a single train/test fold (`TimeSeriesFold` dataclass,
`backtesting.py` lines 36-51).  Index fields are Python ints, embedded as `ℤ`;
`fold_id` is the loop counter, a natural number. -/
structure TimeSeriesFold where
  fold_id : ℕ
  train_start : ℤ
  train_end : ℤ
  test_start : ℤ
  test_end : ℤ
  deriving Repr, DecidableEq

/-- `expanding_window_split` (`backtesting.py` lines 54-115).
`min_train_size` is optional, defaulting to `n_samples // (n_folds + 1)`;
the `raise ValueError` branch becomes `Except.error`.  Python `//` on ints is
floor division, i.e. `Int.fdiv`. -/
def expanding_window_split (n_samples : ℤ) (n_folds : ℕ) (test_size : ℤ)
    (min_train_size : Option ℤ) (gap : ℤ) : Except String (List TimeSeriesFold) :=
  let mts : ℤ := min_train_size.getD (Int.fdiv n_samples (n_folds + 1))
  let total_test : ℤ := n_folds * test_size
  if mts + total_test + gap * n_folds > n_samples then
    Except.error "Not enough samples for specified fold configuration"
  else
    let remaining : ℤ := n_samples - mts - total_test - gap * n_folds
    let step : ℤ := if n_folds > 1 then Int.fdiv remaining n_folds else 0
    Except.ok <| (List.range n_folds).map fun (i : ℕ) =>
      let train_end : ℤ := mts + step * ((i : ℤ) + 1)
      let test_start : ℤ := train_end + gap
      let test_end : ℤ := test_start + test_size
      ⟨i, 0, train_end, test_start, test_end⟩

/-- Loop body of `rolling_window_split` (`backtesting.py` lines 154-172):
iterates `i = i0, i0+1, ...` while `fuel` folds remain, computing
`test_end = min(test_start + test_size, n_samples)` and breaking out of the
loop when `test_end > n_samples`. -/
def rollingGo (n_samples train_size test_size gap step : ℤ) :
    ℕ → ℕ → List TimeSeriesFold
  | 0, _ => []
  | fuel + 1, i =>
    let train_start : ℤ := step * i
    let train_end : ℤ := train_start + train_size
    let test_start : ℤ := train_end + gap
    let test_end : ℤ := min (test_start + test_size) n_samples
    if test_end > n_samples then []
    else ⟨i, train_start, train_end, test_start, test_end⟩ ::
      rollingGo n_samples train_size test_size gap step fuel (i + 1)

/-- `rolling_window_split` (`backtesting.py` lines 118-172).
`step = (n_samples - train_size - test_size - gap) // (n_folds - 1)` when
`n_folds > 1`, else `0`; then `n_folds` iterations of the loop body. -/
def rolling_window_split (n_samples : ℤ) (n_folds : ℕ) (train_size : ℤ)
    (test_size : ℤ) (gap : ℤ) : List TimeSeriesFold :=
  let step : ℤ :=
    if n_folds > 1 then
      Int.fdiv (n_samples - train_size - test_size - gap) (n_folds - 1)
    else 0
  rollingGo n_samples train_size test_size gap step n_folds 0

/-- Value of a Python float expression that may be `np.nan` or `np.inf`
besides an ordinary number.  Metric functions in `metrics.py` return all
three. -/
inductive FVal where
  | num : ℚ → FVal
  | nan : FVal
  | inf : FVal
  deriving Repr, DecidableEq

/-- `np.mean` of a list (sum divided by length; only used on nonempty lists,
matching the guarded call sites in the source). -/
def npMean (l : List ℚ) : ℚ := l.sum / l.length

/-- Population variance, so that `np.std l = sqrtQ (popVar l)` (NumPy `std`
defaults to `ddof=0`). -/
def popVar (l : List ℚ) : ℚ := npMean (l.map fun x => (x - npMean l) ^ 2)

/-- The float literal `1e-10` used as a zero threshold in `metrics.py`. -/
def eps10 : ℚ := 1 / 10 ^ 10

/-- `sharpe_ratio` (`metrics.py` lines 508-544).  The input may contain NaN
entries (`none`), which `returns[~np.isnan(returns)]` removes; `sqrtQ` stands
for `np.sqrt`.  Returns NaN for fewer than 2 observations, `0.0` when
`np.std(returns) < 1e-10`, else the annualized ratio. -/
def sharpe_ratio (sqrtQ : ℚ → ℚ) (returns : List (Option ℚ))
    (risk_free_rate : ℚ) (periods_per_year : ℚ) : FVal :=
  let r := returns.filterMap id
  if r.length < 2 then FVal.nan
  else
    let excess_returns := r.map fun x => x - risk_free_rate / periods_per_year
    if sqrtQ (popVar r) < eps10 then FVal.num 0
    else FVal.num (npMean excess_returns / sqrtQ (popVar r) * sqrtQ periods_per_year)

/-- `sortino_ratio` (`metrics.py` lines 547-587): like Sharpe but with the
population standard deviation of the negative returns in the denominator, and
`inf`/`0.0` fallbacks when fewer than 2 downside observations exist or the
downside deviation is below `1e-10`. -/
def sortino_ratio (sqrtQ : ℚ → ℚ) (returns : List (Option ℚ))
    (risk_free_rate : ℚ) (periods_per_year : ℚ) : FVal :=
  let r := returns.filterMap id
  if r.length < 2 then FVal.nan
  else
    let excess_returns := r.map fun x => x - risk_free_rate / periods_per_year
    let downside_returns := r.filter fun x => decide (x < 0)
    if downside_returns.length < 2 then
      if npMean excess_returns > 0 then FVal.inf else FVal.num 0
    else
      let downside_std := sqrtQ (popVar downside_returns)
      if downside_std < eps10 then
        if npMean excess_returns > 0 then FVal.inf else FVal.num 0
      else FVal.num (npMean excess_returns / downside_std * sqrtQ periods_per_year)

/-- `profit_factor` (`metrics.py` lines 665-687): gross profit over gross
loss, with `inf`/`0.0` fallbacks when the gross loss is below `1e-10`. -/
def profit_factor (returns : List ℚ) : FVal :=
  let gross_profit := (returns.filter fun x => decide (x > 0)).sum
  let gross_loss := -(returns.filter fun x => decide (x < 0)).sum
  if gross_loss < eps10 then
    if gross_profit > 0 then FVal.inf else FVal.num 0
  else FVal.num (gross_profit / gross_loss)

/-- Tail of `np.maximum.accumulate`: running maximum continued from `m`. -/
def runningMaxAux (m : ℚ) : List ℚ → List ℚ
  | [] => []
  | x :: xs => max m x :: runningMaxAux (max m x) xs

/-- `np.maximum.accumulate`: elementwise running maximum. -/
def runningMax : List ℚ → List ℚ
  | [] => []
  | x :: xs => x :: runningMaxAux x xs

/-- Accumulator loop of `np.argmin`: `bi`/`bv` are the best index and value so
far, `i` the index of the head of the remaining list; NumPy keeps the first
occurrence of the minimum, hence the strict `<`. -/
def argminAux : ℕ → ℚ → ℕ → List ℚ → ℕ
  | bi, _, _, [] => bi
  | bi, bv, i, x :: xs =>
    if x < bv then argminAux i x (i + 1) xs else argminAux bi bv (i + 1) xs

/-- `np.argmin`: index of the first minimum (0 on the empty list, where NumPy
would raise; all call sites are guarded). -/
def argminIdx : List ℚ → ℕ
  | [] => 0
  | x :: xs => argminAux 0 x 1 xs

/-- Accumulator loop of `np.argmax`, first occurrence kept. -/
def argmaxAux : ℕ → ℚ → ℕ → List ℚ → ℕ
  | bi, _, _, [] => bi
  | bi, bv, i, x :: xs =>
    if bv < x then argmaxAux i x (i + 1) xs else argmaxAux bi bv (i + 1) xs

/-- `np.argmax`: index of the first maximum. -/
def argmaxIdx : List ℚ → ℕ
  | [] => 0
  | x :: xs => argmaxAux 0 x 1 xs

/-- The drawdown series `(equity - running_max) / running_max`, as computed
both in `max_drawdown` (`metrics.py` lines 613-616) and in
`Backtester._calculate_drawdown` (`backtesting.py` lines 654-658). -/
def drawdownSeries (equity : List ℚ) : List ℚ :=
  equity.zipWith (fun e m => (e - m) / m) (runningMax equity)

/-- `max_drawdown` (`metrics.py` lines 590-624): returns
`(max_drawdown, peak_idx, trough_idx)`; `(0.0, 0, 0)` for curves shorter
than 2.  The trough is `np.argmin` of the drawdown series, the peak
`np.argmax` of the curve truncated just past the trough. -/
def max_drawdown (equity_curve : List ℚ) : ℚ × ℕ × ℕ :=
  if equity_curve.length < 2 then (0, 0, 0)
  else
    let drawdowns := drawdownSeries equity_curve
    let trough_idx := argminIdx drawdowns
    let peak_idx := argmaxIdx (equity_curve.take (trough_idx + 1))
    let max_dd := -(drawdowns.getD trough_idx 0)
    (max_dd, peak_idx, trough_idx)

/-- `np.clip(a, lo, hi)`, i.e. `minimum(hi, maximum(lo, a))`. -/
def npClip (a lo hi : ℚ) : ℚ := min hi (max lo a)

/-- Constructor arguments of `Backtester` (`backtesting.py` lines 545-554). -/
structure BTConfig where
  initial_capital : ℚ
  transaction_cost : ℚ
  slippage : ℚ
  deriving Repr, DecidableEq

/-- One row of the tracking arrays of `Backtester.run`: `positions[i]`,
`cash[i]`, `equity[i]`, `returns[i]`, `trades[i]`. -/
structure BTRow where
  position : ℚ
  cash : ℚ
  equity : ℚ
  ret : ℚ
  trade : ℚ
  deriving Repr, DecidableEq

/-- The default `position_sizer` of `Backtester.run`
(`lambda s, p, v: s * max_position`). -/
def defaultSizer (max_position : ℚ) : ℚ → ℚ → ℚ → ℚ :=
  fun s _ _ => s * max_position

/-- One iteration of the loop in `Backtester.run` (`backtesting.py` lines
600-634), mapping row `i-1` to row `i` given `price = prices[i]`,
`prev_price = prices[i-1]`, `signal = signals[i-1]`.  The source computes
`execution_price` inside the trade branch (lines 614-617) and never reads it
afterwards; the embedding keeps the binding as written. -/
def btStep (cfg : BTConfig) (position_sizer : ℚ → ℚ → ℚ → ℚ)
    (max_position : ℚ) (price prev_price signal : ℚ) (prev : BTRow) : BTRow :=
  let target_position := npClip (position_sizer signal price prev.equity)
    (-max_position) max_position
  let position_change := target_position - prev.position
  if |position_change| > 1 / 1000 then
    let execution_price :=
      if position_change > 0 then price * (1 + cfg.slippage)
      else price * (1 - cfg.slippage)
    let trade_value := |position_change * prev.equity|
    let trade_cost := trade_value * cfg.transaction_cost
    let position := target_position
    let cash := prev.cash - position_change * prev.equity - trade_cost
    let position_value := position * prev.equity * (price / prev_price)
    let equity := cash + position_value
    let _ := execution_price
    ⟨position, cash, equity, equity / prev.equity - 1, 1⟩
  else
    let position := prev.position
    let cash := prev.cash
    let position_value := position * prev.equity * (price / prev_price)
    let equity := cash + position_value
    ⟨position, cash, equity, equity / prev.equity - 1, 0⟩

/-- Row `i` of the state arrays of `Backtester.run`: row 0 is the
initialization (`equity[0] = cash[0] = initial_capital`, `positions[0] = 0`,
`returns[0] = trades[0] = 0`), and row `i+1` comes from one loop iteration.
`prices` and `signals` give the aligned input series by index. -/
def btRow (cfg : BTConfig) (position_sizer : ℚ → ℚ → ℚ → ℚ)
    (max_position : ℚ) (prices signals : ℕ → ℚ) : ℕ → BTRow
  | 0 => ⟨0, cfg.initial_capital, cfg.initial_capital, 0, 0⟩
  | i + 1 => btStep cfg position_sizer max_position (prices (i + 1)) (prices i)
      (signals i) (btRow cfg position_sizer max_position prices signals i)

/-- `Backtester.run` on a series of length `n`: the list of all rows. -/
def btRun (cfg : BTConfig) (position_sizer : ℚ → ℚ → ℚ → ℚ)
    (max_position : ℚ) (prices signals : ℕ → ℚ) (n : ℕ) : List BTRow :=
  (List.range n).map (btRow cfg position_sizer max_position prices signals)

/-- `Backtester.summary` (`backtesting.py` lines 660-692) as a function of the
stored `results_` (`none` models the initial `self.results_ = None`).  `sqrtQ`
stands for `np.sqrt` and `powQ` for the float power `**` in the annualized
return. -/
def Backtester.summary (sqrtQ : ℚ → ℚ) (powQ : ℚ → ℚ → ℚ)
    (results : Option (List BTRow)) : Except String (List (String × FVal)) :=
  match results with
  | none => Except.error "No results available. Run backtest first."
  | some rows =>
    let returns := rows.map (·.ret)
    let equity := rows.map (·.equity)
    let max_dd := (max_drawdown equity).1
    let eq0 := equity.headD 0
    let eqL := equity.getLastD 0
    Except.ok
      [("Total Return (%)", FVal.num ((eqL / eq0 - 1) * 100)),
       ("Annual Return (%)",
        FVal.num ((powQ (eqL / eq0) (252 / equity.length) - 1) * 100)),
       ("Annual Volatility (%)", FVal.num (sqrtQ (popVar returns) * sqrtQ 252 * 100)),
       ("Sharpe Ratio", sharpe_ratio sqrtQ (returns.map some) 0 252),
       ("Sortino Ratio", sortino_ratio sqrtQ (returns.map some) 0 252),
       ("Max Drawdown (%)", FVal.num (max_dd * 100)),
       ("Win Rate (%)",
        FVal.num (npMean (returns.map fun r => if r > 0 then 1 else 0) * 100)),
       ("Profit Factor", profit_factor returns),
       ("Total Trades", FVal.num (rows.map (·.trade)).sum),
       ("Final Equity", FVal.num eqL)]

/-- A call to the method `Backtester.summary` seen as a state transformer:
the method body never assigns to `self`, so the state component is returned
unchanged whether the call raises or not. -/
def Backtester.summaryCall (sqrtQ : ℚ → ℚ) (powQ : ℚ → ℚ → ℚ)
    (results : Option (List BTRow)) :
    Except String (List (String × FVal)) × Option (List BTRow) :=
  (Backtester.summary sqrtQ powQ results, results)

/-- A metric function passed to `WalkForwardValidator.validate`: from the
actual and predicted value arrays it either returns a float (which may itself
be NaN, hence `Option ℚ` with `none` for NaN) or raises (`Except.error`). -/
def MetricFn : Type := List ℚ → List ℚ → Except String (Option ℚ)

/-- Lines 445-450 of `backtesting.py`: `metrics[name] = func(actual, pred)`
inside `try`, with `except` recording `np.nan` after a warning. -/
def recordMetric (r : Except String (Option ℚ)) : Option ℚ :=
  match r with
  | Except.ok v => v
  | Except.error _ => none

/-- The fields of a `FoldResult` that the embedding tracks: the fold id, the
prediction column, the actual column, and the computed metrics dictionary
(`none` = NaN). -/
structure VFoldResult where
  fold_id : ℕ
  predictions : List ℚ
  actual : List ℚ
  metrics : List (String × Option ℚ)
  deriving Repr, DecidableEq

/-- The fold loop of `WalkForwardValidator.validate` (`backtesting.py` lines
412-468).  `μ` is the model type; `model?` carries the model across folds (the
source keeps `model = None` before the first fold and refits when
`self.refit or model is None`); `i` is the running fold id.  Each fold fits,
predicts, stores the test target as the `actual` column, and computes every
metric through `recordMetric`. -/
def validateGo {μ : Type} (fit_func : List ℚ → μ)
    (predict_func : μ → List ℚ → List ℚ) (refit : Bool)
    (metric_funcs : List (String × MetricFn)) :
    List (List ℚ × List ℚ) → Option μ → ℕ → List VFoldResult
  | [], _, _ => []
  | (train_data, test_data) :: rest, model?, i =>
    let model : μ :=
      match model? with
      | none => fit_func train_data
      | some m => if refit then fit_func train_data else m
    let predictions := predict_func model test_data
    let actual := test_data
    let metrics := metric_funcs.map fun nf =>
      (nf.1, recordMetric (nf.2 actual predictions))
    ⟨i, predictions, actual, metrics⟩ ::
      validateGo fit_func predict_func refit metric_funcs rest (some model) (i + 1)

/-- `WalkForwardValidator.validate`: run the fold loop from the initial state
(`model = None`, fold id 0) and return the new `self.results_`. -/
def WalkForwardValidator.validate {μ : Type} (fit_func : List ℚ → μ)
    (predict_func : μ → List ℚ → List ℚ) (refit : Bool)
    (metric_funcs : List (String × MetricFn))
    (folds : List (List ℚ × List ℚ)) : List VFoldResult :=
  validateGo fit_func predict_func refit metric_funcs folds none 0

/-- Summary row for one metric: pandas `mean`/`std`/`min`/`max`/`median`
across folds, each `none` when undefined (all-NaN column, or a single
observation for the sample standard deviation). -/
structure SummaryStats where
  mean : Option ℚ
  std : Option ℚ
  min : Option ℚ
  max : Option ℚ
  median : Option ℚ
  deriving Repr, DecidableEq

/-- The non-NaN values recorded for one metric across the folds (pandas
statistics skip NaN by default). -/
def metricColumn (name : String) (results : List VFoldResult) : List ℚ :=
  results.filterMap fun r => (r.metrics.lookup name).bind id

/-- Minimum of a list of rationals, `none` when empty. -/
def minQ : List ℚ → Option ℚ
  | [] => none
  | x :: xs => some (xs.foldl min x)

/-- Maximum of a list of rationals, `none` when empty. -/
def maxQ : List ℚ → Option ℚ
  | [] => none
  | x :: xs => some (xs.foldl max x)

/-- pandas median: middle element of the sorted values, or the average of the
two middle elements; `none` when empty. -/
def medianQ (vs : List ℚ) : Option ℚ :=
  match vs.mergeSort (fun a b => decide (a ≤ b)) with
  | [] => none
  | s =>
    if vs.length % 2 = 1 then some (s.getD (vs.length / 2) 0)
    else some ((s.getD (vs.length / 2 - 1) 0 + s.getD (vs.length / 2) 0) / 2)

/-- pandas `mean`/`std`/`min`/`max`/`median` of one metric column (`std` is
the sample standard deviation, `ddof=1`, NaN for fewer than 2 values). -/
def colStats (sqrtQ : ℚ → ℚ) (vs : List ℚ) : SummaryStats where
  mean := if vs.isEmpty then none else some (npMean vs)
  std :=
    if vs.length < 2 then none
    else some (sqrtQ ((vs.map fun x => (x - npMean vs) ^ 2).sum / (vs.length - 1)))
  min := minQ vs
  max := maxQ vs
  median := medianQ vs

/-- The summary table computed by `WalkForwardValidator.summary` on a
non-empty `results_`: one `SummaryStats` row per metric name (the folds all
carry the same metric keys, so the first fold fixes the columns). -/
def summaryStats (sqrtQ : ℚ → ℚ) (results : List VFoldResult) :
    List (String × SummaryStats) :=
  match results with
  | [] => []
  | r :: _ => r.metrics.map fun nf => (nf.1, colStats sqrtQ (metricColumn nf.1 results))

/-- `WalkForwardValidator.summary` (`backtesting.py` lines 471-495) as a
function of the stored `results_`: raises when `self.results_` is empty. -/
def WalkForwardValidator.summary (sqrtQ : ℚ → ℚ) (results : List VFoldResult) :
    Except String (List (String × SummaryStats)) :=
  if results.isEmpty then Except.error "No results available. Run validate() first."
  else Except.ok (summaryStats sqrtQ results)

/-- `WalkForwardValidator.get_all_predictions` (`backtesting.py` lines
497-515): raises when `results_` is empty, otherwise concatenates every
fold's predictions with the fold id attached. -/
def WalkForwardValidator.get_all_predictions (results : List VFoldResult) :
    Except String (List (ℚ × ℚ × ℕ)) :=
  if results.isEmpty then Except.error "No results available. Run validate() first."
  else Except.ok (results.flatMap fun r =>
    (r.predictions.zip r.actual).map fun pa => (pa.1, pa.2, r.fold_id))

/-- A call to the method `WalkForwardValidator.summary` as a state
transformer: the body never assigns to `self`, so the state is unchanged. -/
def WalkForwardValidator.summaryCall (sqrtQ : ℚ → ℚ)
    (results : List VFoldResult) :
    Except String (List (String × SummaryStats)) × List VFoldResult :=
  (WalkForwardValidator.summary sqrtQ results, results)

/-- A call to `WalkForwardValidator.get_all_predictions` as a state
transformer: the body never assigns to `self`, so the state is unchanged. -/
def WalkForwardValidator.getAllPredictionsCall (results : List VFoldResult) :
    Except String (List (ℚ × ℚ × ℕ)) × List VFoldResult :=
  (WalkForwardValidator.get_all_predictions results, results)

end BCC

/-- Helper: the fold loop produces one result per fold, regardless of metric
failures. -/
theorem validateGo_length {μ : Type} (fit_func : List ℚ → μ)
    (predict_func : μ → List ℚ → List ℚ) (refit : Bool)
    (metric_funcs : List (String × BCC.MetricFn)) :
    ∀ (folds : List (List ℚ × List ℚ)) (m : Option μ) (i : ℕ),
      (BCC.validateGo fit_func predict_func refit metric_funcs folds m i).length =
        folds.length := by
  intro folds
  induction folds with
  | nil => intro m i; rfl
  | cons f rest ih =>
    intro m i
    obtain ⟨tr, te⟩ := f
    simp only [BCC.validateGo, List.length_cons]
    rw [ih]

/-- Helper: every result row of the fold loop carries exactly the metrics
dictionary obtained by running each registered metric function on that row's
own actual/prediction columns, with a raised exception recorded as NaN. -/
theorem validateGo_metrics {μ : Type} (fit_func : List ℚ → μ)
    (predict_func : μ → List ℚ → List ℚ) (refit : Bool)
    (metric_funcs : List (String × BCC.MetricFn)) :
    ∀ (folds : List (List ℚ × List ℚ)) (m : Option μ) (i : ℕ)
      (r : BCC.VFoldResult),
      r ∈ BCC.validateGo fit_func predict_func refit metric_funcs folds m i →
      r.metrics = metric_funcs.map fun nf =>
        (nf.1, BCC.recordMetric (nf.2 r.actual r.predictions)) := by
  intro folds
  induction folds with
  | nil => intro m i r hr; cases hr
  | cons f rest ih =>
    intro m i r hr
    obtain ⟨tr, te⟩ := f
    simp only [BCC.validateGo, List.mem_cons] at hr
    rcases hr with hr | hr
    · subst hr; rfl
    · exact ih _ _ r hr

/-- Helper: the fold ids, prediction columns and actual columns produced by
the fold loop do not depend on the registered metric functions. -/
theorem validateGo_fit_predict_independent {μ : Type} (fit_func : List ℚ → μ)
    (predict_func : μ → List ℚ → List ℚ) (refit : Bool)
    (metric_funcs1 metric_funcs2 : List (String × BCC.MetricFn)) :
    ∀ (folds : List (List ℚ × List ℚ)) (m : Option μ) (i : ℕ),
      (BCC.validateGo fit_func predict_func refit metric_funcs1 folds m i).map
          (fun r => (r.fold_id, r.predictions, r.actual)) =
        (BCC.validateGo fit_func predict_func refit metric_funcs2 folds m i).map
          (fun r => (r.fold_id, r.predictions, r.actual)) := by
  intro folds
  induction folds with
  | nil => intro m i; rfl
  | cons f rest ih =>
    intro m i
    obtain ⟨tr, te⟩ := f
    simp only [BCC.validateGo, List.map_cons]
    rw [ih]

/-- Claim C5: during `WalkForwardValidator.validate`, a metric function that
raises is caught and recorded as NaN (`none`) for that fold only: every fold
still yields a result (count = fold count), each fold's recorded metrics are
exactly each registered function's own outcome on that fold's actual and
predicted values (so other metrics of the fold are unaffected), and the
fit/predict outputs (fold ids, prediction and actual columns) are identical
under any two metric-function registries. -/
theorem metric_failures_are_fold_local {μ : Type} (fit_func : List ℚ → μ)
    (predict_func : μ → List ℚ → List ℚ) (refit : Bool)
    (metric_funcs metric_funcs2 : List (String × BCC.MetricFn))
    (folds : List (List ℚ × List ℚ)) :
    (BCC.WalkForwardValidator.validate fit_func predict_func refit
      metric_funcs folds).length = folds.length ∧
    (∀ r ∈ BCC.WalkForwardValidator.validate fit_func predict_func refit
        metric_funcs folds,
      r.metrics = metric_funcs.map fun nf =>
        (nf.1, BCC.recordMetric (nf.2 r.actual r.predictions))) ∧
    (BCC.WalkForwardValidator.validate fit_func predict_func refit
        metric_funcs folds).map (fun r => (r.fold_id, r.predictions, r.actual)) =
      (BCC.WalkForwardValidator.validate fit_func predict_func refit
        metric_funcs2 folds).map (fun r => (r.fold_id, r.predictions, r.actual)) :=
  ⟨validateGo_length fit_func predict_func refit metric_funcs folds none 0,
   fun r hr => validateGo_metrics fit_func predict_func refit metric_funcs
     folds none 0 r hr,
   validateGo_fit_predict_independent fit_func predict_func refit metric_funcs
     metric_funcs2 folds none 0⟩

/-- Witness for `metric_failures_are_fold_local`: two folds, a metric
function that always raises and one that succeeds; the first fold's result
records NaN for the raising metric and the computed value for the other. -/
theorem metric_failures_are_fold_local_witness :
    (⟨0, [3], [2], [("BAD", none), ("SUM", some 5)]⟩ : BCC.VFoldResult) ∈
      BCC.WalkForwardValidator.validate (fun tr => tr.foldl (· + ·) 0)
        (fun m te => te.map fun x => x + m) true
        [("BAD", fun _ _ => Except.error "boom"),
         ("SUM", fun a p => Except.ok (some (a.sum + p.sum)))]
        [([1], [2]), ([10], [20])] ∧
    (⟨0, [3], [2], [("BAD", none), ("SUM", some 5)]⟩ : BCC.VFoldResult).metrics =
      [(("BAD" : String), (fun _ _ => Except.error "boom" : BCC.MetricFn)),
       ("SUM", fun a p => Except.ok (some (a.sum + p.sum)))].map fun nf =>
        (nf.1, BCC.recordMetric (nf.2
          (⟨0, [3], [2], [("BAD", none), ("SUM", some 5)]⟩ : BCC.VFoldResult).actual
          (⟨0, [3], [2], [("BAD", none), ("SUM", some 5)]⟩ : BCC.VFoldResult).predictions)) := by
  have hv : BCC.WalkForwardValidator.validate (fun tr => tr.foldl (· + ·) 0)
      (fun m te => te.map fun x => x + m) true
      [("BAD", fun _ _ => Except.error "boom"),
       ("SUM", fun a p => Except.ok (some (a.sum + p.sum)))]
      [([1], [2]), ([10], [20])] =
      [⟨0, [3], [2], [("BAD", none), ("SUM", some 5)]⟩,
       ⟨1, [30], [20], [("BAD", none), ("SUM", some 50)]⟩] := by
    norm_num [BCC.WalkForwardValidator.validate, BCC.validateGo, BCC.recordMetric]
  have hm : (⟨0, [3], [2], [("BAD", none), ("SUM", some 5)]⟩ : BCC.VFoldResult) ∈
      BCC.WalkForwardValidator.validate (fun tr => tr.foldl (· + ·) 0)
      (fun m te => te.map fun x => x + m) true
      [("BAD", fun _ _ => Except.error "boom"),
       ("SUM", fun a p => Except.ok (some (a.sum + p.sum)))]
      [([1], [2]), ([10], [20])] := by
    rw [hv]; exact List.mem_cons_self _ _
  exact ⟨hm, (metric_failures_are_fold_local (fun tr => tr.foldl (· + ·) 0)
    (fun m te => te.map fun x => x + m) true
    [("BAD", fun _ _ => Except.error "boom"),
     ("SUM", fun a p => Except.ok (some (a.sum + p.sum)))]
    [("BAD", fun _ _ => Except.error "boom"),
     ("SUM", fun a p => Except.ok (some (a.sum + p.sum)))]
    [([1], [2]), ([10], [20])]).2.1 _ hm⟩

/-- Helper: removing NaN from an all-`some` constant list keeps it. -/
theorem filterMap_id_replicate_some (n : ℕ) (q : ℚ) :
    (List.replicate n (some q)).filterMap id = List.replicate n q := by
  induction n with
  | zero => rfl
  | succ k ih => simp [List.replicate_succ, ih]

/-- Helper: the mean of an all-zero series is 0. -/
theorem npMean_replicate_zero (n : ℕ) : BCC.npMean (List.replicate n 0) = 0 := by
  simp [BCC.npMean]

/-- Helper: the population variance of an all-zero series is 0. -/
theorem popVar_replicate_zero (n : ℕ) : BCC.popVar (List.replicate n 0) = 0 := by
  simp [BCC.popVar, npMean_replicate_zero, List.map_replicate]

/-- Claim C8: `sharpe_ratio` returns NaN whenever fewer than 2 non-NaN
observations remain after filtering; it returns exactly `0.0` (a number, not
NaN) whenever at least 2 observations remain and the standard deviation is
below the `1e-10` threshold the source uses for "approximately zero"; and in
particular an all-zero return series of length at least 2 gives `0.0`
(assuming only that the square root of 0 is 0). -/
theorem sharpe_degenerate_cases :
    (∀ (sqrtQ : ℚ → ℚ) (returns : List (Option ℚ)) (risk_free_rate pp : ℚ),
      (returns.filterMap id).length < 2 →
      BCC.sharpe_ratio sqrtQ returns risk_free_rate pp = BCC.FVal.nan) ∧
    (∀ (sqrtQ : ℚ → ℚ) (returns : List (Option ℚ)) (risk_free_rate pp : ℚ),
      2 ≤ (returns.filterMap id).length →
      sqrtQ (BCC.popVar (returns.filterMap id)) < BCC.eps10 →
      BCC.sharpe_ratio sqrtQ returns risk_free_rate pp = BCC.FVal.num 0) ∧
    (∀ (sqrtQ : ℚ → ℚ) (risk_free_rate pp : ℚ) (n : ℕ),
      2 ≤ n → sqrtQ 0 = 0 →
      BCC.sharpe_ratio sqrtQ (List.replicate n (some 0)) risk_free_rate pp =
        BCC.FVal.num 0) := by
  refine ⟨?_, ?_, ?_⟩
  · intro sqrtQ returns risk_free_rate pp h
    simp only [BCC.sharpe_ratio]
    rw [if_pos h]
  · intro sqrtQ returns risk_free_rate pp h2 hstd
    simp only [BCC.sharpe_ratio]
    rw [if_neg (Nat.not_lt.mpr h2), if_pos hstd]
  · intro sqrtQ risk_free_rate pp n hn hz
    simp only [BCC.sharpe_ratio, filterMap_id_replicate_some]
    rw [if_neg (Nat.not_lt.mpr (by simpa using hn)),
      if_pos (by rw [popVar_replicate_zero, hz]; norm_num [BCC.eps10])]

/-- Witness for `sharpe_degenerate_cases`: a single observation gives NaN; an
all-zero series of three observations gives `0.0`. -/
theorem sharpe_degenerate_cases_witness :
    BCC.sharpe_ratio (fun _ => 0) [some 1] 0 252 = BCC.FVal.nan ∧
    BCC.sharpe_ratio (fun _ => 0) [some 0, some 1, some 2] 0 252 = BCC.FVal.num 0 ∧
    BCC.sharpe_ratio (fun _ => 0) (List.replicate 3 (some 0)) 0 252 =
      BCC.FVal.num 0 :=
  ⟨sharpe_degenerate_cases.1 (fun _ => 0) [some 1] 0 252 (by simp),
   sharpe_degenerate_cases.2.1 (fun _ => 0) [some 0, some 1, some 2] 0 252
     (by simp) (by norm_num [BCC.eps10]),
   sharpe_degenerate_cases.2.2 (fun _ => 0) 0 252 3 (by norm_num) rfl⟩

/-- Helper: the `argminAux` loop either keeps the incoming best index (and
then the incoming best value bounds every remaining element from below), or
returns the position `i + j` of an element of the remainder that bounds the
incoming best value and every remaining element from below. -/
theorem argminAux_cases (xs : List ℚ) : ∀ (bi i : ℕ) (bv : ℚ),
    (BCC.argminAux bi bv i xs = bi ∧ ∀ x ∈ xs, bv ≤ x) ∨
    (∃ j, j < xs.length ∧ BCC.argminAux bi bv i xs = i + j ∧
      xs.getD j 0 ≤ bv ∧ ∀ x ∈ xs, xs.getD j 0 ≤ x) := by
  induction xs with
  | nil => intro bi i bv; left; exact ⟨rfl, by simp⟩
  | cons x xs ih =>
    intro bi i bv
    by_cases hx : x < bv
    · rcases ih i (i + 1) x with ⟨heq, hmin⟩ | ⟨j, hj, heq, hle, hmin⟩
      · right
        refine ⟨0, by simp, ?_, by simpa using hx.le, ?_⟩
        · simp only [BCC.argminAux, if_pos hx]
          omega
        · intro y hy
          rcases List.mem_cons.mp hy with rfl | hy
          · simp
          · simpa using hmin y hy
      · right
        refine ⟨j + 1, by simpa using hj, ?_, ?_, ?_⟩
        · simp only [BCC.argminAux, if_pos hx]
          omega
        · simpa using (hle.trans hx.le)
        · intro y hy
          rcases List.mem_cons.mp hy with rfl | hy
          · simpa using hle
          · simpa using hmin y hy
    · rcases ih bi (i + 1) bv with ⟨heq, hmin⟩ | ⟨j, hj, heq, hle, hmin⟩
      · left
        refine ⟨by simpa [BCC.argminAux, if_neg hx] using heq, ?_⟩
        intro y hy
        rcases List.mem_cons.mp hy with rfl | hy
        · exact not_lt.mp hx
        · exact hmin y hy
      · right
        refine ⟨j + 1, by simpa using hj, ?_, by simpa using hle, ?_⟩
        · simp only [BCC.argminAux, if_neg hx]
          omega
        · intro y hy
          rcases List.mem_cons.mp hy with rfl | hy
          · simpa using (hle.trans (not_lt.mp hx))
          · simpa using hmin y hy

/-- Helper: an in-range `getD` entry is a member of the list. -/
theorem getD_mem_of_lt (l : List ℚ) (m : ℕ) (h : m < l.length) :
    l.getD m 0 ∈ l := by
  rw [List.getD_eq_getElem _ _ h]
  exact List.getElem_mem h

/-- Helper: on a nonempty list, `argminIdx` returns an in-range index whose
element is a minimum of the list. -/
theorem argminIdx_spec (l : List ℚ) (hl : l ≠ []) :
    BCC.argminIdx l < l.length ∧
    ∀ j < l.length, l.getD (BCC.argminIdx l) 0 ≤ l.getD j 0 := by
  match l, hl with
  | x :: xs, _ =>
    rcases argminAux_cases xs 0 1 x with ⟨heq, hmin⟩ | ⟨j, hj, heq, hle, hmin⟩
    · refine ⟨by simp [BCC.argminIdx, heq], ?_⟩
      intro m hm
      simp only [BCC.argminIdx, heq]
      match m with
      | 0 => simp
      | m + 1 =>
        simp only [List.getD_cons_zero, List.getD_cons_succ]
        exact hmin _ (getD_mem_of_lt xs m (by simpa using hm))
    · have hidx : BCC.argminIdx (x :: xs) = j + 1 := by
        simp only [BCC.argminIdx, heq]
        omega
      refine ⟨by simp [hidx]; omega, ?_⟩
      intro m hm
      rw [hidx]
      simp only [List.getD_cons_succ]
      match m with
      | 0 => simpa using hle
      | m + 1 =>
        simp only [List.getD_cons_succ]
        exact hmin _ (getD_mem_of_lt xs m (by simpa using hm))

/-- Helper: the `argmaxAux` loop, dually to `argminAux_cases`. -/
theorem argmaxAux_cases (xs : List ℚ) : ∀ (bi i : ℕ) (bv : ℚ),
    (BCC.argmaxAux bi bv i xs = bi ∧ ∀ x ∈ xs, x ≤ bv) ∨
    (∃ j, j < xs.length ∧ BCC.argmaxAux bi bv i xs = i + j ∧
      bv ≤ xs.getD j 0 ∧ ∀ x ∈ xs, x ≤ xs.getD j 0) := by
  induction xs with
  | nil => intro bi i bv; left; exact ⟨rfl, by simp⟩
  | cons x xs ih =>
    intro bi i bv
    by_cases hx : bv < x
    · rcases ih i (i + 1) x with ⟨heq, hmax⟩ | ⟨j, hj, heq, hge, hmax⟩
      · right
        refine ⟨0, by simp, ?_, by simpa using hx.le, ?_⟩
        · simp only [BCC.argmaxAux, if_pos hx]
          omega
        · intro y hy
          rcases List.mem_cons.mp hy with rfl | hy
          · simp
          · simpa using hmax y hy
      · right
        refine ⟨j + 1, by simpa using hj, ?_, ?_, ?_⟩
        · simp only [BCC.argmaxAux, if_pos hx]
          omega
        · simpa using (hx.le.trans hge)
        · intro y hy
          rcases List.mem_cons.mp hy with rfl | hy
          · simpa using hge
          · simpa using hmax y hy
    · rcases ih bi (i + 1) bv with ⟨heq, hmax⟩ | ⟨j, hj, heq, hge, hmax⟩
      · left
        refine ⟨by simpa [BCC.argmaxAux, if_neg hx] using heq, ?_⟩
        intro y hy
        rcases List.mem_cons.mp hy with rfl | hy
        · exact not_lt.mp hx
        · exact hmax y hy
      · right
        refine ⟨j + 1, by simpa using hj, ?_, by simpa using hge, ?_⟩
        · simp only [BCC.argmaxAux, if_neg hx]
          omega
        · intro y hy
          rcases List.mem_cons.mp hy with rfl | hy
          · simpa using ((not_lt.mp hx).trans hge)
          · simpa using hmax y hy

/-- Helper: on a nonempty list, `argmaxIdx` returns an in-range index whose
element is a maximum of the list. -/
theorem argmaxIdx_spec (l : List ℚ) (hl : l ≠ []) :
    BCC.argmaxIdx l < l.length ∧
    ∀ j < l.length, l.getD j 0 ≤ l.getD (BCC.argmaxIdx l) 0 := by
  match l, hl with
  | x :: xs, _ =>
    rcases argmaxAux_cases xs 0 1 x with ⟨heq, hmax⟩ | ⟨j, hj, heq, hge, hmax⟩
    · refine ⟨by simp [BCC.argmaxIdx, heq], ?_⟩
      intro m hm
      simp only [BCC.argmaxIdx, heq]
      match m with
      | 0 => simp
      | m + 1 =>
        simp only [List.getD_cons_zero, List.getD_cons_succ]
        exact hmax _ (getD_mem_of_lt xs m (by simpa using hm))
    · have hidx : BCC.argmaxIdx (x :: xs) = j + 1 := by
        simp only [BCC.argmaxIdx, heq]
        omega
      refine ⟨by simp [hidx]; omega, ?_⟩
      intro m hm
      rw [hidx]
      simp only [List.getD_cons_succ]
      match m with
      | 0 => simpa using hge
      | m + 1 =>
        simp only [List.getD_cons_succ]
        exact hmax _ (getD_mem_of_lt xs m (by simpa using hm))

/-- Helper: the running maximum has the same length as its input. -/
theorem runningMaxAux_length (m : ℚ) (l : List ℚ) :
    (BCC.runningMaxAux m l).length = l.length := by
  induction l generalizing m with
  | nil => rfl
  | cons x xs ih => simp [BCC.runningMaxAux, ih]

/-- Helper: `np.maximum.accumulate` preserves length. -/
theorem runningMax_length (l : List ℚ) :
    (BCC.runningMax l).length = l.length := by
  cases l with
  | nil => rfl
  | cons x xs => simp [BCC.runningMax, runningMaxAux_length]

/-- Helper: the drawdown series has the same length as the equity curve. -/
theorem drawdownSeries_length (l : List ℚ) :
    (BCC.drawdownSeries l).length = l.length := by
  simp [BCC.drawdownSeries, runningMax_length]

/-- Helper: `getD` on a prefix agrees with `getD` on the list. -/
theorem getD_take_eq (l : List ℚ) (n i : ℕ) (h : i < (l.take n).length) :
    (l.take n).getD i 0 = l.getD i 0 := by
  have h2 : i < l.length := lt_of_lt_of_le h (by simp [List.length_take])
  rw [List.getD_eq_getElem _ _ h, List.getD_eq_getElem _ _ h2]
  exact List.getElem_take l

/-- Claim C9: `max_drawdown [100, 120, 90, 95, 130]` is exactly
`(0.25, 1, 2)`; and on every equity curve of length at least 2 the returned
trough index is an argmin of the drawdown series
`(equity - running_max) / running_max` (in range, with minimal drawdown
value), the returned peak index is an argmax of the equity curve up to and
including the trough (at most the trough, with maximal equity there), and the
returned maximum drawdown is the negated drawdown at the trough. -/
theorem max_drawdown_peak_trough :
    BCC.max_drawdown [100, 120, 90, 95, 130] = (1 / 4, 1, 2) ∧
    (∀ equity_curve : List ℚ, 2 ≤ equity_curve.length →
      (BCC.max_drawdown equity_curve).2.2 <
        (BCC.drawdownSeries equity_curve).length ∧
      (∀ j < (BCC.drawdownSeries equity_curve).length,
        (BCC.drawdownSeries equity_curve).getD
            (BCC.max_drawdown equity_curve).2.2 0 ≤
          (BCC.drawdownSeries equity_curve).getD j 0) ∧
      (BCC.max_drawdown equity_curve).2.1 ≤ (BCC.max_drawdown equity_curve).2.2 ∧
      (∀ j ≤ (BCC.max_drawdown equity_curve).2.2,
        equity_curve.getD j 0 ≤
          equity_curve.getD (BCC.max_drawdown equity_curve).2.1 0) ∧
      (BCC.max_drawdown equity_curve).1 =
        -((BCC.drawdownSeries equity_curve).getD
          (BCC.max_drawdown equity_curve).2.2 0)) := by
  constructor
  · norm_num [BCC.max_drawdown, BCC.drawdownSeries, BCC.runningMax,
      BCC.runningMaxAux, BCC.argminIdx, BCC.argminAux, BCC.argmaxIdx,
      BCC.argmaxAux]
  · intro l h2
    have hnotlt : ¬ l.length < 2 := not_lt.mpr h2
    have hlen_dd : (BCC.drawdownSeries l).length = l.length := drawdownSeries_length l
    have hdd_ne : BCC.drawdownSeries l ≠ [] := by
      apply List.ne_nil_of_length_pos
      omega
    have hmd : BCC.max_drawdown l =
        (-(((BCC.drawdownSeries l)).getD (BCC.argminIdx (BCC.drawdownSeries l)) 0),
         BCC.argmaxIdx (l.take (BCC.argminIdx (BCC.drawdownSeries l) + 1)),
         BCC.argminIdx (BCC.drawdownSeries l)) := by
      simp only [BCC.max_drawdown, if_neg hnotlt]
    obtain ⟨ht_lt, ht_min⟩ := argminIdx_spec (BCC.drawdownSeries l) hdd_ne
    have ht_lt_l : BCC.argminIdx (BCC.drawdownSeries l) < l.length := by omega
    have htake_len : (l.take (BCC.argminIdx (BCC.drawdownSeries l) + 1)).length =
        BCC.argminIdx (BCC.drawdownSeries l) + 1 := by
      rw [List.length_take]
      omega
    have htake_ne : l.take (BCC.argminIdx (BCC.drawdownSeries l) + 1) ≠ [] := by
      apply List.ne_nil_of_length_pos
      omega
    obtain ⟨hp_lt, hp_max⟩ :=
      argmaxIdx_spec (l.take (BCC.argminIdx (BCC.drawdownSeries l) + 1)) htake_ne
    rw [hmd]
    dsimp only
    refine ⟨ht_lt, ht_min, ?_, ?_, rfl⟩
    · omega
    · intro j hj
      have hj_take : j < (l.take (BCC.argminIdx (BCC.drawdownSeries l) + 1)).length := by
        omega
      have hp_take : BCC.argmaxIdx (l.take (BCC.argminIdx (BCC.drawdownSeries l) + 1)) <
          (l.take (BCC.argminIdx (BCC.drawdownSeries l) + 1)).length := hp_lt
      have := hp_max j hj_take
      rwa [getD_take_eq _ _ _ hj_take, getD_take_eq _ _ _ hp_take] at this

/-- Witness for `max_drawdown_peak_trough`: the general part applied to the
spec's 5-point equity sequence. -/
theorem max_drawdown_peak_trough_witness :
    (BCC.max_drawdown [100, 120, 90, 95, 130]).2.2 <
      (BCC.drawdownSeries [100, 120, 90, 95, 130]).length :=
  (max_drawdown_peak_trough.2 [100, 120, 90, 95, 130] (by norm_num)).1

/-- Claim C10: on every equity curve with fewer than 2 elements,
`max_drawdown` returns `(0.0, 0, 0)` and raises no error (the embedding is a
total function, mirroring the early `return` at lines 609-610 of
`metrics.py`). -/
theorem max_drawdown_short_curve (equity_curve : List ℚ)
    (h : equity_curve.length < 2) : BCC.max_drawdown equity_curve = (0, 0, 0) := by
  unfold BCC.max_drawdown
  simp [h]

/-- Witness for `max_drawdown_short_curve`: the empty curve and a singleton
curve both give `(0, 0, 0)`. -/
theorem max_drawdown_short_curve_witness :
    ([] : List ℚ).length < 2 ∧ BCC.max_drawdown [] = (0, 0, 0) ∧
    [(100 : ℚ)].length < 2 ∧ BCC.max_drawdown [100] = (0, 0, 0) :=
  ⟨by decide, max_drawdown_short_curve [] (by decide),
   by decide, max_drawdown_short_curve [100] (by decide)⟩

/-- Claim C7: `expanding_window_split` raises the configuration error (and
produces no fold) exactly when the effective minimum train size (the given one
or its default `n_samples // (n_folds + 1)`) plus the total test observations
`n_folds * test_size` plus the total gaps `n_folds * gap` strictly exceeds
`n_samples`; otherwise it returns folds and no error. -/
theorem expanding_error_iff (n_samples : ℤ) (n_folds : ℕ)
    (test_size : ℤ) (min_train_size : Option ℤ) (gap : ℤ) :
    (∃ msg, BCC.expanding_window_split n_samples n_folds test_size
        min_train_size gap = Except.error msg) ↔
      min_train_size.getD (Int.fdiv n_samples (n_folds + 1)) +
        n_folds * test_size + gap * n_folds > n_samples := by
  by_cases h : min_train_size.getD (Int.fdiv n_samples ((n_folds : ℤ) + 1)) +
      (n_folds : ℤ) * test_size + gap * (n_folds : ℤ) > n_samples
  · refine iff_of_true ?_ h
    refine ⟨"Not enough samples for specified fold configuration", ?_⟩
    simp only [BCC.expanding_window_split]
    rw [if_pos h]
  · refine iff_of_false ?_ h
    rintro ⟨msg, hmsg⟩
    simp only [BCC.expanding_window_split] at hmsg
    rw [if_neg h] at hmsg
    cases hmsg

/-- Helper: the expanding step `remaining // n_folds` (or 0 for a single
fold) is nonnegative whenever the configuration check passed. -/
theorem expanding_step_nonneg (n mts ts gap : ℤ) (k : ℕ)
    (hle : mts + k * ts + gap * k ≤ n) :
    0 ≤ (if k > 1 then (n - mts - (k : ℤ) * ts - gap * k).fdiv k else 0) := by
  by_cases hk : k > 1
  · rw [if_pos hk]
    exact Int.fdiv_nonneg (by linarith) (Int.natCast_nonneg k)
  · rw [if_neg hk]

/-- Helper: every expanding fold's test window ends at or before `n_samples`
when the configuration check passed and `test_size` and `gap` are
nonnegative. -/
theorem expanding_test_end_le (n mts ts gap : ℤ) (k i : ℕ)
    (hts : 0 ≤ ts) (hgap : 0 ≤ gap) (hik : i < k)
    (hle : mts + k * ts + gap * k ≤ n) :
    mts + (if k > 1 then (n - mts - (k : ℤ) * ts - gap * k).fdiv k else 0) *
      ((i : ℤ) + 1) + gap + ts ≤ n := by
  have hR : 0 ≤ n - mts - (k : ℤ) * ts - gap * k := by linarith
  by_cases hk : k > 1
  · rw [if_pos hk]
    have hkpos : (0 : ℤ) < k := by exact_mod_cast Nat.lt_of_lt_of_le Nat.zero_lt_one hk.le
    have hstep_ediv : (n - mts - (k : ℤ) * ts - gap * k).fdiv k =
        (n - mts - (k : ℤ) * ts - gap * k) / k := Int.fdiv_eq_ediv _ hkpos.le
    have hstep_nonneg : 0 ≤ (n - mts - (k : ℤ) * ts - gap * k).fdiv k :=
      Int.fdiv_nonneg hR hkpos.le
    have h1 : (n - mts - (k : ℤ) * ts - gap * k).fdiv k * ((i : ℤ) + 1) ≤
        (n - mts - (k : ℤ) * ts - gap * k).fdiv k * k := by
      apply mul_le_mul_of_nonneg_left _ hstep_nonneg
      exact_mod_cast Nat.succ_le_of_lt hik
    have h2 : (n - mts - (k : ℤ) * ts - gap * k).fdiv k * k ≤
        n - mts - (k : ℤ) * ts - gap * k := by
      rw [hstep_ediv]; exact Int.ediv_mul_le _ hkpos.ne'
    have h5 : ts ≤ (k : ℤ) * ts := le_mul_of_one_le_left hts (by exact_mod_cast hk.le)
    have h6 : gap ≤ gap * (k : ℤ) := le_mul_of_one_le_right hgap (by exact_mod_cast hk.le)
    linarith
  · rw [if_neg hk]
    have hk1 : k = 1 := by omega
    subst hk1
    push_cast at hle ⊢
    linarith

/-- Claim C3: for every expanding configuration with nonnegative `test_size`
and `gap` that passes the configuration check, `expanding_window_split`
returns exactly `n_folds` folds, each with `train_start = 0`,
`train_end + gap = test_start` and `test_end ≤ n_samples`, and the folds are
sorted by ascending `train_end`. -/
theorem expanding_folds_shape (n_samples : ℤ) (n_folds : ℕ)
    (test_size gap : ℤ) (min_train_size : Option ℤ)
    (folds : List BCC.TimeSeriesFold)
    (hts : 0 ≤ test_size) (hgap : 0 ≤ gap)
    (hok : BCC.expanding_window_split n_samples n_folds test_size
      min_train_size gap = Except.ok folds) :
    folds.length = n_folds ∧
    (∀ f ∈ folds, f.train_start = 0 ∧ f.train_end + gap = f.test_start ∧
      f.test_end ≤ n_samples) ∧
    (∀ (i j : ℕ) (hi : i < folds.length) (hj : j < folds.length), i ≤ j →
      (folds.get ⟨i, hi⟩).train_end ≤ (folds.get ⟨j, hj⟩).train_end) := by
  simp only [BCC.expanding_window_split] at hok
  by_cases hgt : min_train_size.getD (Int.fdiv n_samples ((n_folds : ℤ) + 1)) +
      (n_folds : ℤ) * test_size + gap * n_folds > n_samples
  · rw [if_pos hgt] at hok
    cases hok
  · rw [if_neg hgt] at hok
    injection hok with hfolds
    push_neg at hgt
    subst hfolds
    refine ⟨by simp, ?_, ?_⟩
    · intro f hf
      simp only [List.mem_map, List.mem_range] at hf
      obtain ⟨i, hik, rfl⟩ := hf
      exact ⟨rfl, rfl, expanding_test_end_le n_samples _ test_size gap n_folds i
        hts hgap hik hgt⟩
    · intro i j hi hj hij
      simp only [List.get_eq_getElem, List.getElem_map, List.getElem_range]
      have hstep := expanding_step_nonneg n_samples
        (min_train_size.getD (Int.fdiv n_samples ((n_folds : ℤ) + 1)))
        test_size gap n_folds hgt
      have : ((i : ℤ) + 1) ≤ ((j : ℤ) + 1) := by exact_mod_cast Nat.succ_le_succ hij
      exact add_le_add_left (mul_le_mul_of_nonneg_left this hstep) _

/-- Witness for `expanding_folds_shape` at the configuration
`n_samples = 100`, `n_folds = 5`, `test_size = 10`, default
`min_train_size`, `gap = 0`: the last fold's test window ends at 56 ≤ 100. -/
theorem expanding_folds_shape_witness :
    ([⟨0, 0, 22, 22, 32⟩, ⟨1, 0, 28, 28, 38⟩, ⟨2, 0, 34, 34, 44⟩,
      ⟨3, 0, 40, 40, 50⟩, ⟨4, 0, 46, 46, 56⟩] : List BCC.TimeSeriesFold).length = 5 ∧
    (∀ f ∈ ([⟨0, 0, 22, 22, 32⟩, ⟨1, 0, 28, 28, 38⟩, ⟨2, 0, 34, 34, 44⟩,
      ⟨3, 0, 40, 40, 50⟩, ⟨4, 0, 46, 46, 56⟩] : List BCC.TimeSeriesFold),
      f.train_start = 0 ∧ f.train_end + 0 = f.test_start ∧ f.test_end ≤ 100) ∧
    (∀ (i j : ℕ)
      (hi : i < ([⟨0, 0, 22, 22, 32⟩, ⟨1, 0, 28, 28, 38⟩, ⟨2, 0, 34, 34, 44⟩,
        ⟨3, 0, 40, 40, 50⟩, ⟨4, 0, 46, 46, 56⟩] : List BCC.TimeSeriesFold).length)
      (hj : j < ([⟨0, 0, 22, 22, 32⟩, ⟨1, 0, 28, 28, 38⟩, ⟨2, 0, 34, 34, 44⟩,
        ⟨3, 0, 40, 40, 50⟩, ⟨4, 0, 46, 46, 56⟩] : List BCC.TimeSeriesFold).length),
      i ≤ j →
      (([⟨0, 0, 22, 22, 32⟩, ⟨1, 0, 28, 28, 38⟩, ⟨2, 0, 34, 34, 44⟩,
        ⟨3, 0, 40, 40, 50⟩, ⟨4, 0, 46, 46, 56⟩] : List BCC.TimeSeriesFold).get
          ⟨i, hi⟩).train_end ≤
        (([⟨0, 0, 22, 22, 32⟩, ⟨1, 0, 28, 28, 38⟩, ⟨2, 0, 34, 34, 44⟩,
        ⟨3, 0, 40, 40, 50⟩, ⟨4, 0, 46, 46, 56⟩] : List BCC.TimeSeriesFold).get
          ⟨j, hj⟩).train_end) :=
  expanding_folds_shape 100 5 10 0 none _ (by norm_num) (by norm_num) rfl

/-- Claim C1 (evidence of the code bug): `rolling_window_split` never drops a
fold.  At `n_samples = 10`, `n_folds = 1`, `train_size = 8`, `test_size = 5`,
`gap = 0` the only fold's test window would end at `8 + 5 = 13 > 10`; the spec
says this fold is dropped and generation stops, but the code clamps
`test_end` to `min(test_start + test_size, n_samples) = 10` before the
(therefore unreachable) `break`, returning one fold with a truncated
2-observation test window instead of zero folds. -/
theorem rolling_clamps_instead_of_dropping :
    BCC.rolling_window_split 10 1 8 5 0 = [⟨0, 0, 8, 8, 10⟩] ∧
    (BCC.rolling_window_split 10 1 8 5 0).length = 1 ∧
    ((BCC.rolling_window_split 10 1 8 5 0).map
      fun f => f.test_end - f.test_start) = [2] := by
  refine ⟨by decide, by decide, by decide⟩

/-- Claim C2 (evidence of the code bug): the slippage-adjusted
`execution_price` computed in the trade branch of `Backtester.run` is never
used afterwards — cash is updated from `position_change * equity[i-1]` at the
unadjusted valuation — so every output of the run is independent of the
slippage setting, for all inputs and all time steps; in particular at the
concrete input below a trade does occur (`trades[1] = 1`) yet a 1% slippage
run equals the 0-slippage run, contradicting the claimed existence of an
input whose cash/equity sequences differ. -/
theorem slippage_has_no_effect :
    (∀ (initial_capital transaction_cost s1 s2 : ℚ)
       (position_sizer : ℚ → ℚ → ℚ → ℚ) (max_position : ℚ)
       (prices signals : ℕ → ℚ) (t : ℕ),
       BCC.btRow ⟨initial_capital, transaction_cost, s1⟩ position_sizer
           max_position prices signals t =
         BCC.btRow ⟨initial_capital, transaction_cost, s2⟩ position_sizer
           max_position prices signals t) ∧
    (BCC.btRow ⟨100000, 1 / 1000, 1 / 100⟩ (BCC.defaultSizer 1) 1
        (fun _ => 100) (fun _ => 1) 1).trade = 1 := by
  constructor
  · intro ic tc s1 s2 position_sizer max_position prices signals t
    induction t with
    | zero => rfl
    | succ i ih =>
      simp only [BCC.btRow]
      rw [ih]
      simp only [BCC.btStep]
  · norm_num [BCC.btRow, BCC.btStep, BCC.npClip, BCC.defaultSizer]

/-- Claim C4 (counterexample): the claim quantifies over any `max_position`,
but for the negative value `max_position = -1` the clipping bound
`|position[t]| ≤ max_position` already fails at `t = 0`, where
`position[0] = 0`. -/
theorem position_bound_fails_for_negative_max :
    ¬ (∀ t : ℕ, |(BCC.btRow ⟨100000, 1 / 1000, 1 / 2000⟩ (BCC.defaultSizer (-1))
        (-1) (fun _ => 100) (fun _ => 1) t).position| ≤ (-1 : ℚ)) := by
  intro h
  have h0 := h 0
  norm_num [BCC.btRow] at h0

/-- Claim C4 (amended with `0 ≤ max_position`): for every run of
`Backtester.run` — any configuration, any price and signal series, any
position sizer, any nonnegative `max_position` — the state sequence satisfies
`position[0] = 0`, `|position[t]| ≤ max_position` for every `t`, and
`equity[t] = cash[t] + position[t] * equity[t-1] * (price[t] / price[t-1])`
for every `t ≥ 1`. -/
theorem backtester_state_invariants (cfg : BCC.BTConfig)
    (position_sizer : ℚ → ℚ → ℚ → ℚ) (max_position : ℚ)
    (prices signals : ℕ → ℚ) (hmp : 0 ≤ max_position) :
    (BCC.btRow cfg position_sizer max_position prices signals 0).position = 0 ∧
    (∀ t, |(BCC.btRow cfg position_sizer max_position prices signals t).position| ≤
      max_position) ∧
    (∀ t, (BCC.btRow cfg position_sizer max_position prices signals (t + 1)).equity =
      (BCC.btRow cfg position_sizer max_position prices signals (t + 1)).cash +
        (BCC.btRow cfg position_sizer max_position prices signals (t + 1)).position *
          (BCC.btRow cfg position_sizer max_position prices signals t).equity *
          (prices (t + 1) / prices t)) := by
  refine ⟨rfl, ?_, ?_⟩
  · intro t
    induction t with
    | zero => simpa [BCC.btRow] using hmp
    | succ i ih =>
      simp only [BCC.btRow, BCC.btStep]
      split
      · exact abs_le.mpr ⟨le_min (neg_le_self hmp) (le_max_left _ _), min_le_left _ _⟩
      · exact ih
  · intro t
    simp only [BCC.btRow, BCC.btStep]
    split <;> rfl

/-- Witness for `backtester_state_invariants` at a concrete configuration
with `max_position = 1`. -/
theorem backtester_state_invariants_witness :
    |(BCC.btRow ⟨100000, 1 / 1000, 1 / 2000⟩ (BCC.defaultSizer 1) 1
      (fun _ => 100) (fun _ => 1) 3).position| ≤ (1 : ℚ) :=
  (backtester_state_invariants ⟨100000, 1 / 1000, 1 / 2000⟩ (BCC.defaultSizer 1) 1
    (fun _ => 100) (fun _ => 1) (by norm_num)).2.1 3

/-- Claim C6: calling `WalkForwardValidator.summary` or
`WalkForwardValidator.get_all_predictions` with no stored results, or
`Backtester.summary` before any run (`results_ = None`), raises the
corresponding `ValueError` immediately, and the stored state is unchanged by
the failed call. -/
theorem read_before_run_raises (sqrtQ : ℚ → ℚ) (powQ : ℚ → ℚ → ℚ) :
    BCC.WalkForwardValidator.summaryCall sqrtQ [] =
      (Except.error "No results available. Run validate() first.", []) ∧
    BCC.WalkForwardValidator.getAllPredictionsCall [] =
      (Except.error "No results available. Run validate() first.", []) ∧
    BCC.Backtester.summaryCall sqrtQ powQ none =
      (Except.error "No results available. Run backtest first.", none) :=
  ⟨rfl, rfl, rfl⟩
